import Mathlib

/-!
Verification development for the bsync Sequencer (src/src/sequence.js).

The JavaScript class `Sequencer` is shallowly embedded here.  JavaScript
values relevant to the code are modelled by the inductive type `Arg`;
objects are association lists in insertion order; a task function value
carries its observable behaviour: whether it calls
`context.sequence.terminate()` before completing, and the ordered list of
`complete(err, data)` calls it issues (the code never reads anything else
from a task).  The engine methods are modelled by a fuel-indexed
interpreter `step`; each run records an event log: one `Event.invoke`
entry per task dispatch (with the exact `opts` object handed to the task)
and one `Event.terminal` entry per invocation of the stored terminal
callback.  A thrown JavaScript exception (including a `TypeError` from
calling a non-function) is modelled by the `crashed` field, which aborts
the rest of the run, mirroring stack unwinding with no catch in the code.

Modelling assumptions, stated once: `Function.isFunction` is taken to be
the host-provided function type test the author relies on throughout the
code; `isPlainObject` (the npm dependency) is true exactly on plain
objects; execution is single threaded and tasks complete synchronously in
dispatch order, which is one schedule the host environment can produce;
the JavaScript values `undefined` and `null` carried in the
`pendingErr` / error positions are both modelled by `none`.
-/

/-- JavaScript values, as far as sequence.js can observe them.  `seqRef` is
the back-reference to the Sequencer stored under the key "sequence";
`func termFirst completions` is a task function value described by its
behaviour. -/
inductive Arg where
  | jsUndefined : Arg
  | nullV : Arg
  | boolV : Bool → Arg
  | num : Int → Arg
  | str : String → Arg
  | obj : List (String × Arg) → Arg
  | arrV : List Arg → Arg
  | seqRef : Arg
  | func : Bool → List (Option String × Arg) → Arg

/-- JavaScript truthiness of an `Arg`. -/
def truthy : Arg → Bool
  | .jsUndefined => false
  | .nullV => false
  | .boolV b => b
  | .num n => n != 0
  | .str s => s != ""
  | _ => true

/-- The function type test (`Function.isFunction`). -/
def isFunctionV : Arg → Bool
  | .func _ _ => true
  | _ => false

/-- `Array.isArray`. -/
def isArrayV : Arg → Bool
  | .arrV _ => true
  | _ => false

/-- The npm `is-plain-object` test. -/
def isPlainObjectV : Arg → Bool
  | .obj _ => true
  | _ => false

/-- Property lookup on an association-list object: first binding wins,
missing keys read as `undefined`. -/
def ctxGet (m : List (String × Arg)) (k : String) : Arg :=
  match m.find? (fun p => p.1 == k) with
  | some p => p.2
  | none => .jsUndefined

/-- Assignment `o[k] = v` on an association-list object: overwrites the
existing binding in place, else appends (JavaScript key order). -/
def updK : List (String × Arg) → String → Arg → List (String × Arg)
  | [], k, v => [(k, v)]
  | p :: rest, k, v => if p.1 == k then (k, v) :: rest else p :: updK rest k v

/-- The `for (prop in src) base[prop] = src[prop]` copy loop used by the
code in `processNextSequenceFunction` and `handlePartialSequenceComplete`. -/
def listMerge (base : List (String × Arg)) (src : List (String × Arg)) : List (String × Arg) :=
  src.foldl (fun acc p => updK acc p.1 p.2) base

/-- Enumerable own properties seen by a `for in` loop over a value:
object keys, array indices, string indices; primitives have none. -/
def argPairs : Arg → List (String × Arg)
  | .obj m => m
  | .arrV xs => xs.enum.map (fun p => (toString p.1, p.2))
  | .str s => s.toList.enum.map (fun p => (toString p.1, Arg.str (String.mk [p.2])))
  | _ => []

/-- JavaScript indexing `a[i]` with a numeric index. -/
def jsIndex : Arg → Nat → Arg
  | .arrV xs, i => xs.getD i .jsUndefined
  | .obj m, i => ctxGet m (toString i)
  | .str s, i => (s.toList.enum.map (fun p => (toString p.1, Arg.str (String.mk [p.2])))).foldr
      (fun p r => if p.1 == toString i then p.2 else r) .jsUndefined
  | _, _ => .jsUndefined

/-- JavaScript `a.length` for the values the code takes a length of. -/
def jsLength : Arg → Nat
  | .arrV xs => xs.length
  | .str s => s.length
  | _ => 0

/-- Truthiness of the `err` argument of a completion (`null` and the empty
string are falsy). -/
def errTruthy : Option String → Bool
  | none => false
  | some s => s != ""

/-- JavaScript string coercion of the current `pendingErr` (which starts
life as `undefined`). -/
def jsStrOfErr : Option String → String
  | none => "undefined"
  | some s => s

/-- Model of line 262, `this.pendingErr = this.pendingErr + " " + err || err`:
the concatenation always contains a space so it is always truthy and the
`|| err` alternative is dead; when `err` is falsy nothing is assigned. -/
def errStep1 (pe : Option String) (e : Option String) : Option String :=
  if errTruthy e then some (jsStrOfErr pe ++ " " ++ e.getD "") else pe

/-- Observable events of a run: each task dispatch, with the stage index,
the position inside the stage, and the exact `opts` object passed; and
each call of the stored terminal callback with its two arguments. -/
inductive Event where
  | invoke : Nat → Nat → List (String × Arg) → Event
  | terminal : Option String → Arg → Event

/-- Error message of sequence.js lines 110 and 147. -/
def invalidCallbackMsg : String :=
  "Invalid callback function passed to Sequencer.construct. A function or null must be passed."

/-- Error message of sequence.js lines 122 and 158. -/
def invalidSequenceMsg : String :=
  "Invalid sequence passed to Sequencer.construct. An array of functions (and arrays) or a single function must be passed."

/-- Error message of sequence.js lines 132 and 167. -/
def invalidArgsMsg : String :=
  "Invalid function args passed to Sequencer.construct. An object<k, v> containing arguments must be passed."

/-- Error message of sequence.js line 140. -/
def tooManyArgsMsg : String :=
  "No more than 3 arguments can be passed to Sequencer.construct."

/-- Error message of sequence.js line 187. -/
def nullArgumentsMsg : String :=
  "arguments passed to Sequencer.constructor were null. Nothing to run. Returning"

/-- The fields of a `Sequencer` instance, plus the model bookkeeping:
`crashed` records a thrown exception (or fuel exhaustion) and `events`
records the observable log. -/
structure S where
  sequence : Arg := .arrV []
  args : Arg := .nullV
  callback : Arg := .nullV
  startupErrorText : Option String := none
  currentSequenceIdx : Nat := 0
  pendingData : List (String × Arg) := []
  pendingErr : Option String := none
  concurrentFunctions : Nat := 0
  isConstructing : Bool := false
  crashed : Option String := none
  events : List Event := []

/-- `Sequencer.terminate`, lines 283-285: force the index past the end. -/
def terminateSeq (s : S) : S :=
  { s with currentSequenceIdx := jsLength s.sequence }

/-- Which engine method a re-entrant call enters: `pnext` is
`processNextSequenceFunction`, `hPart err data` is
`handlePartialSequenceComplete`, `hcomplete` is
`handleSequenceFunctionComplete`. -/
inductive Call where
  | pnext : Call
  | hPart : Option String → Arg → Call
  | hcomplete : Call

/-- Fuel-indexed interpreter of the three mutually re-entrant engine
methods of sequence.js (lines 212-281).  A task dispatch runs the task
body: optionally `terminate()`, then each of its `complete` calls in
order, synchronously, exactly as single-threaded JavaScript would when
tasks complete synchronously. -/
def step : Nat → Call → S → S
  | 0, _, s => if s.crashed.isSome then s else { s with crashed := some "out of fuel" }
  | fuel+1, c, s =>
    if s.crashed.isSome then s else
    match c with
    | .pnext =>
      -- lines 212-246. opts is built once: {sequence: this}, then the
      -- args copy loop, then the pendingData copy loop; pendingData is
      -- cleared before dispatch.
      let stageIdx := s.currentSequenceIdx
      let opts0 : List (String × Arg) := [("sequence", Arg.seqRef)]
      let opts1 := if truthy s.args then listMerge opts0 (argPairs s.args) else opts0
      let opts := listMerge opts1 s.pendingData
      let s1 := { s with pendingData := [] }
      match jsIndex s1.sequence stageIdx with
      | .arrV members =>
        -- concurrent group: set the counter, then dispatch every member
        -- in order with the same opts object.
        let s2 := { s1 with concurrentFunctions := members.length }
        members.enum.foldl
          (fun acc p =>
            if acc.crashed.isSome then acc else
            match p.2 with
            | .func tf comps =>
              let acc1 := { acc with events := acc.events ++ [Event.invoke stageIdx p.1 opts] }
              let acc2 := if tf then terminateSeq acc1 else acc1
              comps.foldl (fun a ed => step fuel (.hPart ed.1 ed.2) a) acc2
            | _ => { acc with crashed := some "TypeError: group member is not a function" })
          s2
      | .func tf comps =>
        let s2 := { s1 with events := s1.events ++ [Event.invoke stageIdx 0 opts] }
        let s3 := if tf then terminateSeq s2 else s2
        comps.foldl (fun a ed => step fuel (.hPart ed.1 ed.2) a) s3
      | _ => { s1 with crashed := some "TypeError: stage is not a function" }
    | .hPart err data =>
      -- lines 248-268. Decrement guarded by truthiness of the counter;
      -- merge truthy data; accumulate truthy err; fan in at zero.
      let s1 := if s.concurrentFunctions != 0 then
                  { s with concurrentFunctions := s.concurrentFunctions - 1 } else s
      let s2 := if truthy data then
                  { s1 with pendingData := listMerge s1.pendingData (argPairs data) } else s1
      let s3 := { s2 with pendingErr := errStep1 s2.pendingErr err }
      if s3.concurrentFunctions == 0 then step fuel .hcomplete s3 else s3
    | .hcomplete =>
      -- lines 270-281. Last stage: call the callback if present and stop;
      -- otherwise advance the index and process the next stage.
      if jsLength s.sequence ≤ s.currentSequenceIdx + 1 then
        if truthy s.callback then
          { s with events := s.events ++ [Event.terminal s.pendingErr (Arg.obj s.pendingData)] }
        else s
      else
        step fuel .pnext { s with currentSequenceIdx := s.currentSequenceIdx + 1 }

/-- `Sequencer.processNextSequenceFunction`, lines 212-246. -/
def processNextSequenceFunction (fuel : Nat) (s : S) : S := step fuel .pnext s

/-- `Sequencer.handlePartialSequenceComplete`, lines 248-268. -/
def handlePartialSequenceComplete (fuel : Nat) (err : Option String) (data : Arg) (s : S) : S :=
  step fuel (.hPart err data) s

/-- `Sequencer.handleSequenceFunctionComplete`, lines 270-281. -/
def handleSequenceFunctionComplete (fuel : Nat) (s : S) : S := step fuel .hcomplete s

/-- `Sequencer.go`, lines 290-292. -/
def goSeq (fuel : Nat) (s : S) : S := processNextSequenceFunction fuel s

/-- Tail of `Sequencer.objConstructor` (lines 117-136): the sequence shape
check, then the args shape check, with the early returns of the source. -/
def objConstructorRest (argObj : List (String × Arg)) (s : S) : S :=
  if s.startupErrorText.isSome then s
  else if isArrayV (ctxGet argObj "sequence") || isFunctionV (ctxGet argObj "sequence") then
    let s1 := { s with sequence := ctxGet argObj "sequence" }
    if truthy (ctxGet argObj "args") then
      if isPlainObjectV (ctxGet argObj "args") then { s1 with args := ctxGet argObj "args" }
      else { s1 with startupErrorText := some invalidArgsMsg }
    else s1
  else { s with startupErrorText := some invalidSequenceMsg }

/-- `Sequencer.objConstructor`, lines 101-137.  Lines 102-104 store the
raw field values first; the callback type check follows and throws on a
truthy non-function callback. -/
def objConstructor (s : S) (argObj : List (String × Arg)) : S :=
  let s1 := { s with
    sequence := if truthy (ctxGet argObj "sequence") then ctxGet argObj "sequence" else .nullV,
    args := if truthy (ctxGet argObj "args") then ctxGet argObj "args" else .nullV,
    callback := if truthy (ctxGet argObj "callback") then ctxGet argObj "callback" else .nullV }
  if truthy (ctxGet argObj "callback") then
    if isFunctionV (ctxGet argObj "callback") then
      objConstructorRest argObj { s1 with callback := ctxGet argObj "callback" }
    else { s1 with crashed := some invalidCallbackMsg }
  else objConstructorRest argObj s1

/-- Tail of `Sequencer.arrConstructor` (lines 153-171): the sequence shape
check against `argArray[0]`, then the args check against `arguments[1]`
of the method itself. -/
def arrConstructorRest (ownArguments : List Arg) (argArray : List Arg) (s : S) : S :=
  if s.startupErrorText.isSome then s
  else if isArrayV (argArray.getD 0 .jsUndefined) || isFunctionV (argArray.getD 0 .jsUndefined) then
    let s1 := { s with sequence := argArray.getD 0 .jsUndefined }
    if truthy (ownArguments.getD 1 .jsUndefined) then
      if isPlainObjectV (ownArguments.getD 1 .jsUndefined) then { s1 with args := ownArguments.getD 1 .jsUndefined }
      else { s1 with startupErrorText := some invalidArgsMsg }
    else s1
  else { s with startupErrorText := some invalidSequenceMsg }

/-- `Sequencer.arrConstructor`, lines 138-172.  The method is invoked as
`this.arrConstructor(arguments)` with a single argument, so in strict
mode the `arguments` object inside the method holds exactly one entry,
`argArray` itself; the reads `arguments[2]` (line 143) and `arguments[1]`
(line 163) therefore always see `undefined`. -/
def arrConstructor (s : S) (argArray : List Arg) : S :=
  let ownArguments : List Arg := [Arg.arrV argArray]
  let s1 := if s.startupErrorText.isNone && decide (argArray.length > 3) then
              { s with startupErrorText := some tooManyArgsMsg } else s
  if truthy (ownArguments.getD 2 .jsUndefined) then
    if isFunctionV (ownArguments.getD 2 .jsUndefined) then
      arrConstructorRest ownArguments argArray { s1 with callback := ownArguments.getD 2 .jsUndefined }
    else { s1 with crashed := some invalidCallbackMsg }
  else arrConstructorRest ownArguments argArray s1

/-- `Sequencer.construct`, lines 173-203: reset the fields, dispatch on
the argument shape, and on a recorded startup error report it once
through the callback when one was stored. -/
def construct (argsList : List Arg) (s : S) : S :=
  let s1 := { s with sequence := Arg.arrV [], callback := Arg.nullV, args := Arg.nullV,
                     startupErrorText := none, currentSequenceIdx := 0,
                     pendingData := [], concurrentFunctions := 0 }
  if argsList.isEmpty && s1.isConstructing then s1
  else
    let s2 := if argsList.isEmpty then { s1 with startupErrorText := some nullArgumentsMsg } else s1
    let s3 :=
      if !isFunctionV (argsList.getD 0 .jsUndefined) && argsList.length == 1
          && isPlainObjectV (argsList.getD 0 .jsUndefined) then
        match argsList.getD 0 .jsUndefined with
        | .obj m => objConstructor s2 m
        | _ => s2
      else arrConstructor s2 argsList
    if s3.crashed.isSome then s3
    else if s3.startupErrorText.isSome then
      if truthy s3.callback then
        { s3 with events := s3.events ++ [Event.terminal s3.startupErrorText Arg.nullV] }
      else s3
    else s3

/-- `new Sequencer(...)`, lines 204-210: set `isConstructing`, run
`construct` on the constructor arguments, clear `isConstructing`. -/
def newSequencer (argsList : List Arg) : S :=
  let s0 : S := { isConstructing := true }
  let s1 := construct argsList s0
  if s1.crashed.isSome then s1 else { s1 with isConstructing := false }

/-- The exported `sequence()` wrapper, lines 295-305: a fresh
`new Sequencer()` with no arguments, then `construct` with the real
arguments, then `go()` unconditionally. -/
def bsyncSequence (fuel : Nat) (argsList : List Arg) : S :=
  let s0 := newSequencer []
  let s1 := construct argsList s0
  if s1.crashed.isSome then s1 else goSeq fuel s1

/-- Is an event a terminal-callback call. -/
def isTerminalEv : Event → Bool
  | .terminal _ _ => true
  | _ => false

/-- Is an event a task dispatch. -/
def isInvokeEv : Event → Bool
  | .invoke _ _ _ => true
  | _ => false

/-- How many times the terminal callback was called during a run. -/
def terminalCalls (s : S) : Nat := s.events.countP isTerminalEv

/-- The argument pairs of every terminal-callback call, in order. -/
def terminalDatas (s : S) : List (Option String × Arg) :=
  s.events.filterMap (fun e => match e with
    | .terminal err d => some (err, d)
    | _ => none)

/-- How many task dispatches a run performed. -/
def invokeCount (s : S) : Nat := s.events.countP isInvokeEv

/-- How many task dispatches happened at stage `k` or later. -/
def invokesAtOrAfter (k : Nat) (s : S) : Nat :=
  s.events.countP (fun e => match e with
    | .invoke i _ _ => decide (k ≤ i)
    | _ => false)

/-- The opts objects handed to the tasks dispatched at stage `j`. -/
def invokeOptsAt (s : S) (j : Nat) : List (List (String × Arg)) :=
  s.events.filterMap (fun e => match e with
    | .invoke i _ o => if i == j then some o else none
    | _ => none)

/-- A terminal-callback function value (its body is never interpreted,
only its invocations are logged). -/
def cbFn : Arg := .func false []

/-- A well-behaved task: completes exactly once, synchronously, with
`complete(null, {k: v})`. -/
def retTask (k : String) (v : Int) : Arg := .func false [(none, .obj [(k, .num v)])]

/-- A misbehaving task that invokes its complete callback twice. -/
def doubleTask : Arg := .func false [(none, .obj [("a", .num 1)]), (none, .obj [("a", .num 1)])]

/-- A task that calls `opts.sequence.terminate()` and then completes once
with `{t: 5}`. -/
def termTask : Arg := .func true [(none, .obj [("t", .num 5)])]

/-- A task that reports an error and no data. -/
def errTask (e : String) : Arg := .func false [(some e, .nullV)]

/-- The run of the C2 concrete scenario: three single-task stages
returning taskA:1, taskB:2, taskC:3 with initialArgs x:1 and a terminal
callback, driven through the public wrapper. -/
def threeStageRun : S :=
  bsyncSequence 30 [.obj [("sequence", Arg.arrV [retTask "taskA" 1, retTask "taskB" 2, retTask "taskC" 3]),
                          ("args", Arg.obj [("x", Arg.num 1)]),
                          ("callback", cbFn)]]

/-- Claim C1.  The spec demands at-most-once delivery of the terminal
callback even when a task invokes its complete callback more than once,
and prescribes a closed flag for it.  The code has no such flag: for the
run with a single stage whose task completes twice, the terminal callback
fires twice. -/
theorem c1_terminal_fires_twice_on_double_completion :
    terminalCalls (bsyncSequence 30 [.obj [("sequence", Arg.arrV [doubleTask]), ("callback", cbFn)]]) = 2 := by
  rfl

/-- Claim C2, counterexample.  In the concrete scenario of the claim
(three synchronous single-task stages producing taskA:1, taskB:2, taskC:3
with initialArgs x:1) the terminal callback receives only the final
stage data {taskC: 3}; the key taskA demanded by the claimed union is
absent from the delivered data. -/
theorem c2_counterexample_terminal_is_not_union :
    terminalDatas threeStageRun = [(none, Arg.obj [("taskC", Arg.num 3)])]
      ∧ ctxGet [("taskC", Arg.num 3)] "taskA" = Arg.jsUndefined := by
  exact ⟨rfl, rfl⟩

/-- Claim C3.  The positional construction form is documented and tested
to behave like the object form, but `arrConstructor` reads `arguments[1]`
and `arguments[2]` of itself (always undefined, since the method receives
the forwarded arguments object as its single parameter) instead of
`argArray[1]` and `argArray[2]`: the positional form silently drops the
initial args and the terminal callback, so the run invokes the task
without the x key and never calls the terminal callback, while the object
form with the same three values behaves as documented. -/
theorem c3_positional_form_drops_args_and_callback :
    (bsyncSequence 30 [.obj [("sequence", Arg.arrV [retTask "r" 7]),
                             ("args", Arg.obj [("x", Arg.num 1)]),
                             ("callback", cbFn)]]).events
        = [.invoke 0 0 [("sequence", Arg.seqRef), ("x", Arg.num 1)],
           .terminal none (Arg.obj [("r", Arg.num 7)])]
      ∧ (bsyncSequence 30 [Arg.arrV [retTask "r" 7], Arg.obj [("x", Arg.num 1)], cbFn]).events
        = [.invoke 0 0 [("sequence", Arg.seqRef)]]
      ∧ (bsyncSequence 30 [Arg.arrV [retTask "r" 7], Arg.obj [("x", Arg.num 1)], cbFn]).callback
        = Arg.nullV
      ∧ (bsyncSequence 30 [Arg.arrV [retTask "r" 7], Arg.obj [("x", Arg.num 1)], cbFn]).args
        = Arg.nullV := by
  exact ⟨rfl, rfl, rfl, rfl⟩

/-- Claim C5, counterexample.  In the three-stage run, the key taskA is
first produced at stage 0, but the context handed to the stage 2 task
does not contain it: stage results are only visible to the immediately
following stage, not to every later stage as claimed. -/
theorem c5_counterexample_stage0_key_absent_at_stage2 :
    invokeOptsAt threeStageRun 2 = [[("sequence", Arg.seqRef), ("x", Arg.num 1), ("taskB", Arg.num 2)]]
      ∧ ctxGet [("sequence", Arg.seqRef), ("x", Arg.num 1), ("taskB", Arg.num 2)] "taskA" = Arg.jsUndefined := by
  exact ⟨rfl, rfl⟩

/-- Claim C6.  The concrete scenario with a concurrent first stage and a
merging second stage: the three group members each receive the same
context, the merge task observes taskA:1, taskB:2, taskC:3, and the
terminal call is (falsy error, {done: true}) with none of the raw group
keys re-surfaced. -/
theorem c6_group_then_merge_scenario :
    (bsyncSequence 40 [.obj [("sequence",
        Arg.arrV [Arg.arrV [retTask "taskA" 1, retTask "taskB" 2, retTask "taskC" 3],
                  .func false [(none, Arg.obj [("done", Arg.boolV true)])]]),
        ("callback", cbFn)]]).events
      = [.invoke 0 0 [("sequence", Arg.seqRef)],
         .invoke 0 1 [("sequence", Arg.seqRef)],
         .invoke 0 2 [("sequence", Arg.seqRef)],
         .invoke 1 0 [("sequence", Arg.seqRef), ("taskA", Arg.num 1), ("taskB", Arg.num 2), ("taskC", Arg.num 3)],
         .terminal none (Arg.obj [("done", Arg.boolV true)])] := by
  rfl

/-- Claim C8, counterexample.  For the invalid configuration with a
well-formed stage list, a malformed args value (an array) and a callback:
construction records the descriptive error and reports it once through
the callback as claimed, but the unconditional `go()` of the public
wrapper then dispatches the stage anyway: the task IS invoked (with the
array spread into its context by the for-in copy), and the terminal
callback fires a second time with the run result, not with the stored
error, so execution does start and `go()` is neither a no-op nor an
immediate completion with the stored error. -/
theorem c8_counterexample_go_unguarded :
    (bsyncSequence 40 [.obj [("sequence", Arg.arrV [retTask "r" 7]),
                             ("args", Arg.arrV [Arg.num 1]),
                             ("callback", cbFn)]]).startupErrorText = some invalidArgsMsg
      ∧ (bsyncSequence 40 [.obj [("sequence", Arg.arrV [retTask "r" 7]),
                                 ("args", Arg.arrV [Arg.num 1]),
                                 ("callback", cbFn)]]).events
        = [.terminal (some invalidArgsMsg) Arg.nullV,
           .invoke 0 0 [("sequence", Arg.seqRef), ("0", Arg.num 1)],
           .terminal none (Arg.obj [("r", Arg.num 7)])] := by
  exact ⟨rfl, rfl⟩

/-- Claim C9.  In the object form a truthy non-callable terminal handler
throws synchronously, and it does so before the stage-list shape check;
but in the positional form the same non-callable handler is silently
ignored (the dead `arguments[2]` read), the construction succeeds with no
error recorded and no callback stored, contradicting the claim that both
accepted forms raise. -/
theorem c9_positional_noncallable_handler_not_raised :
    (newSequencer [Arg.arrV [retTask "r" 7], Arg.nullV, Arg.num 42]).crashed = none
      ∧ (newSequencer [Arg.arrV [retTask "r" 7], Arg.nullV, Arg.num 42]).startupErrorText = none
      ∧ (newSequencer [Arg.arrV [retTask "r" 7], Arg.nullV, Arg.num 42]).callback = Arg.nullV
      ∧ (newSequencer [.obj [("sequence", Arg.num 5), ("callback", Arg.num 42)]]).crashed
        = some invalidCallbackMsg := by
  exact ⟨rfl, rfl, rfl, rfl⟩

/-- A well-behaved single-task stage in normal form: the task optionally
calls `terminate()` first and then issues exactly one `complete(err,
{data})` call, synchronously. -/
structure Row where
  term : Bool
  err : Option String
  data : List (String × Arg)

/-- The task function value of a `Row`. -/
def rowTask (r : Row) : Arg := .func r.term [(r.err, .obj r.data)]

/-- What `handlePartialSequenceComplete` leaves in `pendingData` after the
one completion of a `Row` stage (the accumulator was cleared at dispatch). -/
def stageData (r : Row) : List (String × Arg) := listMerge [] r.data

/-- The opts object `processNextSequenceFunction` builds from the stored
args and the pending data of the previous stage. -/
def mkOpts (args : Arg) (pd : List (String × Arg)) : List (String × Arg) :=
  listMerge (if truthy args then listMerge [("sequence", Arg.seqRef)] (argPairs args)
             else [("sequence", Arg.seqRef)]) pd

/-- A mid-run Sequencer state over a list of `Row` stages: valid
configuration, current stage `i`, accumulators `pd` and `pe`, event log
`ev`. -/
def midState (rows : List Row) (args cb : Arg) (i : Nat) (pd : List (String × Arg))
    (pe : Option String) (ev : List Event) : S :=
  { sequence := .arrV (rows.map rowTask), args := args, callback := cb,
    currentSequenceIdx := i, pendingData := pd, pendingErr := pe,
    concurrentFunctions := 0, events := ev }

/-- Plain objects are truthy. -/
theorem truthy_obj (m : List (String × Arg)) : truthy (Arg.obj m) = true := rfl

/-- The stage `pre.length` of a row sequence indexes to its own row. -/
theorem getD_map_append_cons (pre : List Row) (r : Row) (rs : List Row) :
    ((pre ++ r :: rs).map rowTask).getD pre.length Arg.jsUndefined = rowTask r := by
  induction pre with
  | nil => rfl
  | cons a t ih => simpa using ih

/-- Processing a non-terminating single-task stage that is not the last
stage advances the index, replaces the pending data with the stage's own
merge, accumulates the error, and logs the dispatch. -/
theorem step_stage_mid (args cb : Arg) (pre : List Row) (r : Row) (rs : List Row)
    (hterm : r.term = false) (hrs : rs ≠ [])
    (pd : List (String × Arg)) (pe : Option String) (ev : List Event) (f : Nat) :
    step (f+3) .pnext (midState (pre ++ r :: rs) args cb pre.length pd pe ev) =
      step f .pnext (midState (pre ++ r :: rs) args cb (pre.length + 1) (stageData r)
        (errStep1 pe r.err) (ev ++ [Event.invoke pre.length 0 (mkOpts args pd)])) := by
  cases rs with
  | nil => exact absurd rfl hrs
  | cons b t =>
    simp only [step, midState, jsIndex, jsLength, mkOpts, stageData, truthy_obj,
      getD_map_append_cons, rowTask, hterm, argPairs,
      List.foldl_cons, List.foldl_nil, List.length_map, List.length_append,
      List.length_cons]
    have h1 : ¬(pre.length + (t.length + 1 + 1) ≤ pre.length + 1) := by omega
    simp [h1]

/-- Processing a non-terminating single-task stage that is the last stage
fires the terminal callback once with the accumulated error and the stage
merge. -/
theorem step_stage_last (args cb : Arg) (hcb : truthy cb = true)
    (pre : List Row) (r : Row) (hterm : r.term = false)
    (pd : List (String × Arg)) (pe : Option String) (ev : List Event) (f : Nat) :
    step (f+3) .pnext (midState (pre ++ [r]) args cb pre.length pd pe ev) =
      midState (pre ++ [r]) args cb pre.length (stageData r) (errStep1 pe r.err)
        (ev ++ [Event.invoke pre.length 0 (mkOpts args pd),
                Event.terminal (errStep1 pe r.err) (Arg.obj (stageData r))]) := by
  simp only [step, midState, jsIndex, jsLength, mkOpts, stageData, truthy_obj,
    getD_map_append_cons, rowTask, hterm, argPairs,
    List.foldl_cons, List.foldl_nil, List.length_map, List.length_append,
    List.length_cons]
  have h1 : pre.length + (0 + 1) ≤ pre.length + 1 := by omega
  simp [h1, hcb]

/-- Processing a stage whose task calls `terminate()` and then completes:
the index jumps past the end and the terminal callback fires with the
accumulated error and that stage's own merge, regardless of how many
stages follow. -/
theorem step_stage_term (args cb : Arg) (hcb : truthy cb = true)
    (pre : List Row) (r : Row) (rs : List Row) (hterm : r.term = true)
    (pd : List (String × Arg)) (pe : Option String) (ev : List Event) (f : Nat) :
    step (f+3) .pnext (midState (pre ++ r :: rs) args cb pre.length pd pe ev) =
      midState (pre ++ r :: rs) args cb (pre ++ r :: rs).length (stageData r)
        (errStep1 pe r.err)
        (ev ++ [Event.invoke pre.length 0 (mkOpts args pd),
                Event.terminal (errStep1 pe r.err) (Arg.obj (stageData r))]) := by
  simp only [step, midState, jsIndex, jsLength, mkOpts, stageData, terminateSeq, truthy_obj,
    getD_map_append_cons, rowTask, hterm, argPairs,
    List.foldl_cons, List.foldl_nil, List.length_map, List.length_append,
    List.length_cons]
  have h1 : pre.length + (rs.length + 1) ≤ pre.length + (rs.length + 1) + 1 := by omega
  simp [h1, hcb]

/-- Error accumulation over a list of row completions, exactly as
`handlePartialSequenceComplete` performs it. -/
def errAcc (pe : Option String) (rows : List Row) : Option String :=
  rows.foldl (fun p r => errStep1 p r.err) pe

/-- The pending data left after running a list of row stages: each stage
replaces the accumulator with its own merge. -/
def lastData (pd : List (String × Arg)) (rows : List Row) : List (String × Arg) :=
  rows.foldl (fun _ r => stageData r) pd

/-- The event log produced by running the remaining row stages to natural
completion, starting at stage `i` with accumulators `pd` and `pe`. -/
def runEvents (args : Arg) : Nat → List (String × Arg) → Option String → List Row → List Event
  | _, _, _, [] => []
  | i, pd, pe, r :: rs =>
    Event.invoke i 0 (mkOpts args pd) ::
      (match rs with
       | [] => [Event.terminal (errStep1 pe r.err) (Arg.obj (stageData r))]
       | _ :: _ => runEvents args (i+1) (stageData r) (errStep1 pe r.err) rs)

/-- Running the remaining non-terminating single-task stages to the end:
every stage is dispatched in order, the terminal callback fires once at
the last stage with the accumulated error and the last stage's own merge. -/
theorem run_singles (args cb : Arg) (hcb : truthy cb = true)
    (rest : List Row) (hne : rest ≠ []) (hterm : ∀ r ∈ rest, r.term = false)
    (pre : List Row) (pd : List (String × Arg)) (pe : Option String) (ev : List Event)
    (f : Nat) (hf : 3 * rest.length ≤ f) :
    step f .pnext (midState (pre ++ rest) args cb pre.length pd pe ev) =
      midState (pre ++ rest) args cb (pre.length + rest.length - 1)
        (lastData pd rest) (errAcc pe rest) (ev ++ runEvents args pre.length pd pe rest) := by
  induction rest generalizing pre pd pe ev f with
  | nil => exact absurd rfl hne
  | cons r rs ih =>
    obtain ⟨g, rfl⟩ : ∃ g, f = g + 3 := ⟨f - 3, by simp at hf; omega⟩
    have hr : r.term = false := hterm r (by simp)
    cases rs with
    | nil =>
      rw [step_stage_last args cb hcb pre r hr pd pe ev g]
      simp [lastData, errAcc, runEvents]
    | cons b t =>
      rw [step_stage_mid args cb pre r (b :: t) hr (by simp) pd pe ev g]
      have hterm2 : ∀ x ∈ b :: t, x.term = false := by
        intro x hx; exact hterm x (by simp [hx])
      have happ : pre ++ r :: b :: t = (pre ++ [r]) ++ b :: t := by simp
      have hlen : pre.length + 1 = (pre ++ [r]).length := by simp
      rw [happ, hlen,
        ih (by simp) hterm2 (pre ++ [r]) (stageData r) (errStep1 pe r.err)
          (ev ++ [Event.invoke pre.length 0 (mkOpts args pd)]) g
          (by simp at hf ⊢; omega)]
      simp [lastData, errAcc, runEvents]
      congr 1
      omega

/-- The event log of a run that processes the non-terminating stages
`mid` in order and then reaches a stage whose task terminates and
completes: one dispatch per stage, then the single terminal call. -/
def runEventsTerm (args : Arg) : Nat → List (String × Arg) → Option String → List Row → Row → List Event
  | i, pd, pe, [], r =>
    [Event.invoke i 0 (mkOpts args pd),
     Event.terminal (errStep1 pe r.err) (Arg.obj (stageData r))]
  | i, pd, pe, x :: t, r =>
    Event.invoke i 0 (mkOpts args pd) :: runEventsTerm args (i+1) (stageData x) (errStep1 pe x.err) t r

/-- Running from stage `pre.length` through the non-terminating stages
`mid` and then the terminating stage `r`: the terminal callback fires
once, with the errors accumulated so far and with stage `r`'s own merge
as the data, the index is forced past the end, and no stage after `r` is
processed. -/
theorem run_with_term (args cb : Arg) (hcb : truthy cb = true)
    (mid : List Row) (hmid : ∀ x ∈ mid, x.term = false)
    (r : Row) (hr : r.term = true) (post : List Row)
    (pre : List Row) (pd : List (String × Arg)) (pe : Option String) (ev : List Event)
    (f : Nat) (hf : 3 * (mid.length + 1) ≤ f) :
    step f .pnext (midState (pre ++ mid ++ r :: post) args cb pre.length pd pe ev) =
      midState (pre ++ mid ++ r :: post) args cb (pre ++ mid ++ r :: post).length
        (stageData r) (errStep1 (errAcc pe mid) r.err)
        (ev ++ runEventsTerm args pre.length pd pe mid r) := by
  induction mid generalizing pre pd pe ev f with
  | nil =>
    obtain ⟨g, rfl⟩ : ∃ g, f = g + 3 := ⟨f - 3, by omega⟩
    have := step_stage_term args cb hcb pre r post hr pd pe ev g
    simpa [errAcc, runEventsTerm] using this
  | cons x t ih =>
    obtain ⟨g, rfl⟩ : ∃ g, f = g + 3 := ⟨f - 3, by simp at hf; omega⟩
    have hx : x.term = false := hmid x (by simp)
    have happ1 : pre ++ (x :: t) ++ r :: post = pre ++ x :: (t ++ r :: post) := by simp
    rw [happ1, step_stage_mid args cb pre x (t ++ r :: post) hx (by simp) pd pe ev g]
    have hterm2 : ∀ y ∈ t, y.term = false := by
      intro y hy; exact hmid y (by simp [hy])
    have happ2 : pre ++ x :: (t ++ r :: post) = (pre ++ [x]) ++ t ++ r :: post := by simp
    have hlen : pre.length + 1 = (pre ++ [x]).length := by simp
    rw [happ2, hlen,
      ih hterm2 (pre ++ [x]) (stageData x) (errStep1 pe x.err)
        (ev ++ [Event.invoke pre.length 0 (mkOpts args pd)]) g
        (by simp at hf ⊢; omega)]
    simp [errAcc, runEventsTerm]

/-- Does the object have an own property named `k`. -/
def hasKey (m : List (String × Arg)) (k : String) : Bool :=
  m.any (fun p => p.1 == k)

theorem listMerge_nil_src (a : List (String × Arg)) : listMerge a [] = a := rfl

theorem listMerge_cons_src (a : List (String × Arg)) (p : String × Arg) (t : List (String × Arg)) :
    listMerge a (p :: t) = listMerge (updK a p.1 p.2) t := rfl

theorem ctxGet_nil (k : String) : ctxGet [] k = Arg.jsUndefined := rfl

theorem ctxGet_cons (a : String × Arg) (l : List (String × Arg)) (k : String) :
    ctxGet (a :: l) k = if a.1 = k then a.2 else ctxGet l k := by
  by_cases h : a.1 = k <;> simp [ctxGet, List.find?_cons, h]

theorem hasKey_nil (k : String) : hasKey [] k = false := rfl

theorem hasKey_cons (a : String × Arg) (l : List (String × Arg)) (k : String) :
    hasKey (a :: l) k = ((a.1 == k) || hasKey l k) := by
  simp [hasKey]

theorem ctxGet_updK (l : List (String × Arg)) (k : String) (v : Arg) (q : String) :
    ctxGet (updK l k v) q = if q = k then v else ctxGet l q := by
  induction l with
  | nil =>
    rw [show updK [] k v = [(k, v)] from rfl, ctxGet_cons, ctxGet_nil]
    by_cases h : q = k
    · simp [h]
    · have h2 : ¬k = q := fun h3 => h h3.symm
      simp [h, h2]
  | cons a t ih =>
    by_cases h : a.1 = k
    · have hupd : updK (a :: t) k v = (k, v) :: t := by simp [updK, h]
      rw [hupd, ctxGet_cons, ctxGet_cons]
      by_cases h2 : q = k
      · simp [h2]
      · have hk : ¬k = q := fun h3 => h2 h3.symm
        have ha : ¬a.1 = q := by rw [h]; exact hk
        simp [hk, ha, h2]
    · have hupd : updK (a :: t) k v = a :: updK t k v := by simp [updK, h]
      rw [hupd, ctxGet_cons, ih, ctxGet_cons]
      by_cases h2 : a.1 = q
      · have hq : ¬q = k := by
          intro h3; rw [h3] at h2; exact h h2
        simp [h2, hq]
      · simp [h2]

theorem hasKey_updK (l : List (String × Arg)) (k : String) (v : Arg) (q : String) :
    hasKey (updK l k v) q = (hasKey l q || (k == q)) := by
  induction l with
  | nil =>
    rw [show updK [] k v = [(k, v)] from rfl, hasKey_cons, hasKey_nil]
    simp
  | cons a t ih =>
    by_cases h : a.1 = k
    · have hupd : updK (a :: t) k v = (k, v) :: t := by simp [updK, h]
      rw [hupd, hasKey_cons, hasKey_cons, h]
      cases h1 : (k == q) <;> cases h2 : hasKey t q <;> simp [h1, h2]
    · have hupd : updK (a :: t) k v = a :: updK t k v := by simp [updK, h]
      rw [hupd, hasKey_cons, ih, hasKey_cons]
      cases h1 : (a.1 == q) <;> cases h2 : hasKey t q <;> cases h3 : (k == q) <;>
        simp [h1, h2, h3]

theorem ctxGet_listMerge_absent (b a : List (String × Arg)) (k : String)
    (hb : hasKey b k = false) : ctxGet (listMerge a b) k = ctxGet a k := by
  induction b generalizing a with
  | nil => rfl
  | cons p t ih =>
    rw [hasKey_cons] at hb
    have h1 : (p.1 == k) = false := by
      cases h : (p.1 == k) <;> rw [h] at hb <;> simp at hb ⊢
    have h2 : hasKey t k = false := by
      cases h : hasKey t k <;> rw [h] at hb <;> simp at hb ⊢
    rw [listMerge_cons_src, ih _ h2, ctxGet_updK]
    have h3 : ¬k = p.1 := by
      intro h4; rw [h4] at h1; simp at h1
    simp [h3]

theorem hasKey_listMerge (b a : List (String × Arg)) (k : String) :
    hasKey (listMerge a b) k = (hasKey a k || hasKey b k) := by
  induction b generalizing a with
  | nil => simp [listMerge_nil_src, hasKey_nil]
  | cons p t ih =>
    rw [listMerge_cons_src, ih, hasKey_updK, hasKey_cons]
    cases h1 : (p.1 == k) <;> cases h2 : hasKey a k <;> cases h3 : hasKey t k <;>
      simp [h1, h2, h3]

theorem ctxGet_listMerge_present (b a : List (String × Arg)) (k : String)
    (hb : hasKey b k = true) (hnd : (b.map Prod.fst).Nodup) :
    ctxGet (listMerge a b) k = ctxGet b k := by
  induction b generalizing a with
  | nil => simp [hasKey_nil] at hb
  | cons p t ih =>
    simp only [List.map_cons, List.nodup_cons] at hnd
    by_cases h : p.1 = k
    · have ht : hasKey t k = false := by
        cases hv : hasKey t k
        · rfl
        · exfalso
          rcases List.any_eq_true.mp hv with ⟨q, hq, hq2⟩
          have hqk : q.1 = k := by simpa using hq2
          have hmem : q.1 ∈ t.map Prod.fst := List.mem_map_of_mem Prod.fst hq
          rw [hqk] at hmem
          rw [h] at hnd
          exact hnd.1 hmem
      rw [listMerge_cons_src, ctxGet_listMerge_absent _ _ _ ht, ctxGet_updK, ctxGet_cons]
      simp [h]
    · have hp : (p.1 == k) = false := by
        cases hv : (p.1 == k)
        · rfl
        · exact absurd (by simpa using hv) h
      rw [hasKey_cons, hp] at hb
      simp only [Bool.false_or] at hb
      rw [listMerge_cons_src, ih _ hb hnd.2, ctxGet_cons]
      simp [h]

theorem errAcc_none (rows : List Row) (pe : Option String)
    (h : ∀ r ∈ rows, r.err = none) : errAcc pe rows = pe := by
  induction rows generalizing pe with
  | nil => rfl
  | cons r rs ih =>
    have hr : r.err = none := h r (by simp)
    have : errStep1 pe r.err = pe := by simp [errStep1, hr, errTruthy]
    simp only [errAcc, List.foldl_cons] at ih ⊢
    rw [this]
    exact ih pe (fun x hx => h x (by simp [hx]))

theorem lastData_map (ms : List (List (String × Arg))) (hne : ms ≠ [])
    (pd : List (String × Arg)) :
    lastData pd (ms.map (fun m => Row.mk false none m)) = listMerge [] (ms.getLastD []) := by
  induction ms generalizing pd with
  | nil => exact absurd rfl hne
  | cons m t ih =>
    cases t with
    | nil => rfl
    | cons b u =>
      have : lastData pd ((m :: b :: u).map (fun m => Row.mk false none m)) =
          lastData (stageData (Row.mk false none m)) ((b :: u).map (fun m => Row.mk false none m)) := rfl
      rw [this, ih (by simp)]
      rfl

theorem runEvents_single (args : Arg) (i : Nat) (pd : List (String × Arg))
    (pe : Option String) (r : Row) :
    runEvents args i pd pe [r] =
      [Event.invoke i 0 (mkOpts args pd),
       Event.terminal (errStep1 pe r.err) (Arg.obj (stageData r))] := rfl

theorem runEvents_cons_cons (args : Arg) (i : Nat) (pd : List (String × Arg))
    (pe : Option String) (r b : Row) (t : List Row) :
    runEvents args i pd pe (r :: b :: t) =
      Event.invoke i 0 (mkOpts args pd) ::
        runEvents args (i+1) (stageData r) (errStep1 pe r.err) (b :: t) := rfl

theorem runEvents_countP_invoke (args : Arg) (i : Nat) (pd : List (String × Arg))
    (pe : Option String) (rows : List Row) :
    (runEvents args i pd pe rows).countP isInvokeEv = rows.length := by
  induction rows generalizing i pd pe with
  | nil => rfl
  | cons r rs ih =>
    cases rs with
    | nil => simp [runEvents_single, List.countP_cons, isInvokeEv]
    | cons b t =>
      rw [runEvents_cons_cons, List.countP_cons, ih]
      simp [isInvokeEv]

theorem runEvents_filterMap_terminal (args : Arg) (i : Nat) (pd : List (String × Arg))
    (pe : Option String) (rows : List Row) (hne : rows ≠ []) :
    (runEvents args i pd pe rows).filterMap (fun e => match e with
        | .terminal err d => some (err, d)
        | _ => none) = [(errAcc pe rows, Arg.obj (lastData pd rows))] := by
  induction rows generalizing i pd pe with
  | nil => exact absurd rfl hne
  | cons r rs ih =>
    cases rs with
    | nil => simp [runEvents_single, errAcc, lastData]
    | cons b t =>
      rw [runEvents_cons_cons, List.filterMap_cons]
      rw [ih _ _ _ (by simp)]
      simp [errAcc, lastData]

theorem runEvents_invoke_mem (args : Arg) (i : Nat) (pd : List (String × Arg))
    (pe : Option String) (rows : List Row) (j mi : Nat) (o : List (String × Arg))
    (h : Event.invoke j mi o ∈ runEvents args i pd pe rows) :
    o = mkOpts args pd ∨ ∃ r ∈ rows, o = mkOpts args (stageData r) := by
  induction rows generalizing i pd pe with
  | nil => simp [runEvents] at h
  | cons r rs ih =>
    cases rs with
    | nil =>
      rw [runEvents_single] at h
      simp only [List.mem_cons, List.mem_singleton] at h
      rcases h with h | h | h
      · left; exact ((Event.invoke.injEq _ _ _ _ _ _).mp h).2.2
      · exact absurd h (by simp)
      · simp at h
    | cons b t =>
      rw [runEvents_cons_cons] at h
      simp only [List.mem_cons] at h
      rcases h with h | h
      · left; exact ((Event.invoke.injEq _ _ _ _ _ _).mp h).2.2
      · rcases ih _ _ _ h with h2 | ⟨r2, hr2, h3⟩
        · right; exact ⟨r, by simp, h2⟩
        · right; exact ⟨r2, by simp [hr2], h3⟩

theorem runEventsTerm_filterMap_terminal (args : Arg) (i : Nat) (pd : List (String × Arg))
    (pe : Option String) (mid : List Row) (r : Row) :
    (runEventsTerm args i pd pe mid r).filterMap (fun e => match e with
        | .terminal err d => some (err, d)
        | _ => none) = [(errStep1 (errAcc pe mid) r.err, Arg.obj (stageData r))] := by
  induction mid generalizing i pd pe with
  | nil => simp [runEventsTerm, errAcc]
  | cons x t ih =>
    simp only [runEventsTerm, List.filterMap_cons]
    rw [ih]
    simp [errAcc]

theorem runEventsTerm_countP_terminal (args : Arg) (i : Nat) (pd : List (String × Arg))
    (pe : Option String) (mid : List Row) (r : Row) :
    (runEventsTerm args i pd pe mid r).countP isTerminalEv = 1 := by
  induction mid generalizing i pd pe with
  | nil => simp [runEventsTerm, List.countP_cons, isTerminalEv]
  | cons x t ih =>
    simp only [runEventsTerm, List.countP_cons]
    rw [ih]
    simp [isTerminalEv]

theorem runEventsTerm_countP_invoke (args : Arg) (i : Nat) (pd : List (String × Arg))
    (pe : Option String) (mid : List Row) (r : Row) :
    (runEventsTerm args i pd pe mid r).countP isInvokeEv = mid.length + 1 := by
  induction mid generalizing i pd pe with
  | nil => simp [runEventsTerm, List.countP_cons, isInvokeEv]
  | cons x t ih =>
    simp only [runEventsTerm, List.countP_cons]
    rw [ih]
    simp [isInvokeEv]

theorem runEventsTerm_no_late_invokes (args : Arg) (i : Nat) (pd : List (String × Arg))
    (pe : Option String) (mid : List Row) (r : Row) (k : Nat) (hk : i + mid.length < k) :
    (runEventsTerm args i pd pe mid r).countP (fun e => match e with
        | .invoke j _ _ => decide (k ≤ j)
        | _ => false) = 0 := by
  induction mid generalizing i pd pe with
  | nil =>
    have : ¬(k ≤ i) := by omega
    simp [runEventsTerm, List.countP_cons, this]
  | cons x t ih =>
    simp only [runEventsTerm, List.countP_cons]
    rw [ih _ _ _ (by simp at hk ⊢; omega)]
    have : ¬(k ≤ i) := by omega
    simp [this]

/-- The opts objects of the dispatches at stage `j` inside an event list. -/
def evOptsAt (l : List Event) (j : Nat) : List (List (String × Arg)) :=
  l.filterMap (fun e => match e with
    | .invoke i _ o => if i == j then some o else none
    | _ => none)

theorem invokeOptsAt_eq_evOptsAt (s : S) (j : Nat) : invokeOptsAt s j = evOptsAt s.events j := rfl

theorem evOptsAt_nil (j : Nat) : evOptsAt [] j = [] := rfl

theorem evOptsAt_cons_invoke (i mi : Nat) (o : List (String × Arg)) (l : List Event) (j : Nat) :
    evOptsAt (Event.invoke i mi o :: l) j =
      if i == j then o :: evOptsAt l j else evOptsAt l j := by
  by_cases h : i = j <;> simp [evOptsAt, List.filterMap_cons, h]

theorem evOptsAt_cons_terminal (e : Option String) (d : Arg) (l : List Event) (j : Nat) :
    evOptsAt (Event.terminal e d :: l) j = evOptsAt l j := by
  simp [evOptsAt, List.filterMap_cons]

/-- The pending data that feeds the opts of stage `j`: empty for stage 0,
else the merge of stage `j - 1`. -/
def pdAtRows (pd : List (String × Arg)) (rows : List Row) : Nat → List (String × Arg)
  | 0 => pd
  | j+1 => stageData (rows.getD j ⟨false, none, []⟩)

theorem pdAtRows_shift (pd : List (String × Arg)) (r : Row) (rs : List Row) (j : Nat) :
    pdAtRows (stageData r) rs j = pdAtRows pd (r :: rs) (j+1) := by
  cases j <;> rfl

theorem evOptsAt_runEvents_lt (args : Arg) (i : Nat) (pd : List (String × Arg))
    (pe : Option String) (rows : List Row) (j : Nat) (hj : j < i) :
    evOptsAt (runEvents args i pd pe rows) j = [] := by
  induction rows generalizing i pd pe with
  | nil => rfl
  | cons r rs ih =>
    have hij : (i == j) = false := by simp; omega
    cases rs with
    | nil =>
      rw [runEvents_single, evOptsAt_cons_invoke, hij]
      simp [evOptsAt_cons_terminal, evOptsAt_nil]
    | cons b t =>
      rw [runEvents_cons_cons, evOptsAt_cons_invoke, hij]
      simp only [Bool.false_eq_true, if_false]
      exact ih _ _ _ (by omega)

theorem evOptsAt_runEvents (args : Arg) (i : Nat) (pd : List (String × Arg))
    (pe : Option String) (rows : List Row) (j : Nat) (hj : j < rows.length) :
    evOptsAt (runEvents args i pd pe rows) (i + j) = [mkOpts args (pdAtRows pd rows j)] := by
  induction rows generalizing i pd pe j with
  | nil => simp at hj
  | cons r rs ih =>
    cases j with
    | zero =>
      have hh : (i == i + 0) = true := by simp
      cases rs with
      | nil =>
        rw [runEvents_single, evOptsAt_cons_invoke, hh]
        simp [evOptsAt_cons_terminal, evOptsAt_nil, pdAtRows]
      | cons b t =>
        rw [runEvents_cons_cons, evOptsAt_cons_invoke, hh]
        rw [show i + 0 = i from rfl, evOptsAt_runEvents_lt args (i+1) _ _ _ i (by omega)]
        simp [pdAtRows]
    | succ j2 =>
      have hh : (i == i + (j2 + 1)) = false := by simp
      cases rs with
      | nil => simp at hj
      | cons b t =>
        rw [runEvents_cons_cons, evOptsAt_cons_invoke, hh]
        simp only [Bool.false_eq_true, if_false]
        rw [show i + (j2 + 1) = (i + 1) + j2 by omega,
          ih (i+1) (stageData r) (errStep1 pe r.err) j2 (by simp at hj ⊢; omega),
          pdAtRows_shift pd]

theorem hasKey_append (a b : List (String × Arg)) (k : String) :
    hasKey (a ++ b) k = (hasKey a k || hasKey b k) := by
  simp [hasKey, List.any_append]

theorem updK_append_of_absent (acc : List (String × Arg)) (k : String) (v : Arg)
    (h : hasKey acc k = false) : updK acc k v = acc ++ [(k, v)] := by
  induction acc with
  | nil => rfl
  | cons p t ih =>
    rw [hasKey_cons] at h
    have h1 : (p.1 == k) = false := by
      cases hv : (p.1 == k) <;> rw [hv] at h <;> simp at h ⊢
    have h2 : hasKey t k = false := by
      cases hv : hasKey t k <;> rw [hv] at h <;> simp [h1] at h ⊢
    have h3 : ¬p.1 = k := by
      intro h4; rw [h4] at h1; simp at h1
    simp [updK, h3, ih h2]

theorem listMerge_append_of_disjoint (m acc : List (String × Arg))
    (h : ∀ p ∈ m, hasKey acc p.1 = false) (hnd : (m.map Prod.fst).Nodup) :
    listMerge acc m = acc ++ m := by
  induction m generalizing acc with
  | nil => simp [listMerge_nil_src]
  | cons p t ih =>
    simp only [List.map_cons, List.nodup_cons] at hnd
    rw [listMerge_cons_src, updK_append_of_absent acc p.1 p.2 (h p (by simp))]
    rw [ih (acc ++ [(p.1, p.2)]) ?hdisj hnd.2]
    · simp
    · intro q hq
      rw [hasKey_append, h q (by simp [hq]), hasKey_cons, hasKey_nil]
      have : ¬p.1 = q.1 := by
        intro h4
        exact hnd.1 (h4 ▸ List.mem_map_of_mem Prod.fst hq)
      simp [this]

theorem listMerge_nil_of_nodup (m : List (String × Arg)) (hnd : (m.map Prod.fst).Nodup) :
    listMerge [] m = m := by
  rw [listMerge_append_of_disjoint m [] (fun p _ => rfl) hnd]
  rfl

theorem getD_mem {α : Type} (l : List α) (j : Nat) (d : α) (hj : j < l.length) :
    l.getD j d ∈ l := by
  induction l generalizing j with
  | nil => simp at hj
  | cons a t ih =>
    cases j with
    | zero => simp
    | succ j2 => simp only [List.getD_cons_succ]; exact List.mem_cons_of_mem a (ih j2 (by simp at hj ⊢; omega))

theorem getLastD_mem {α : Type} (l : List α) (d : α) (hne : l ≠ []) :
    l.getLastD d ∈ l := by
  induction l generalizing d with
  | nil => exact absurd rfl hne
  | cons a t ih =>
    cases t with
    | nil => simp
    | cons b u => simpa using List.mem_cons_of_mem a (ih a (by simp))

theorem getD_map_mkRow (ms : List (List (String × Arg))) (j : Nat) (hj : j < ms.length) :
    (ms.map (fun m => Row.mk false none m)).getD j ⟨false, none, []⟩ =
      ⟨false, none, ms.getD j []⟩ := by
  induction ms generalizing j with
  | nil => simp at hj
  | cons m t ih =>
    cases j with
    | zero => rfl
    | succ j2 => simpa using ih j2 (by simp at hj ⊢; omega)

/-- Claim C4.  For every run of single-task stages in which the task of
stage k (preceded by the non-terminating stages `mid`) calls
`terminate()` through the context back-reference and then completes, the
terminal callback fires exactly once, its data is the stage-k merge of
the run (which is exactly that task's own result, since each stage
replaces the pending data), no task of any stage after k is ever invoked,
and exactly the stages 0..k were dispatched. -/
theorem c4_terminate_midrun
    (args : Arg) (mid : List Row) (hmid : ∀ x ∈ mid, x.term = false)
    (r : Row) (hr : r.term = true) (post : List Row)
    (f : Nat) (hf : 3 * (mid.length + 1) ≤ f) :
    terminalCalls (step f .pnext (midState (mid ++ r :: post) args cbFn 0 [] none [])) = 1
    ∧ terminalDatas (step f .pnext (midState (mid ++ r :: post) args cbFn 0 [] none []))
        = [(errStep1 (errAcc none mid) r.err, Arg.obj (stageData r))]
    ∧ invokesAtOrAfter (mid.length + 1)
        (step f .pnext (midState (mid ++ r :: post) args cbFn 0 [] none [])) = 0
    ∧ invokeCount (step f .pnext (midState (mid ++ r :: post) args cbFn 0 [] none []))
        = mid.length + 1 := by
  have hrun := run_with_term args cbFn rfl mid hmid r hr post [] [] none [] f hf
  simp only [List.nil_append, List.length_nil] at hrun
  rw [hrun]
  refine ⟨?_, ?_, ?_, ?_⟩
  · simp [terminalCalls, midState, runEventsTerm_countP_terminal]
  · simp [terminalDatas, midState, runEventsTerm_filterMap_terminal]
  · simp only [invokesAtOrAfter, midState, List.nil_append]
    exact runEventsTerm_no_late_invokes args 0 [] none mid r (mid.length + 1) (by omega)
  · simp [invokeCount, midState, runEventsTerm_countP_invoke]

def c4midRows : List Row := [⟨false, none, [("a", Arg.num 1)]⟩]

def c4termRow : Row := ⟨true, none, [("t", Arg.num 5)]⟩

def c4postRows : List Row := [⟨false, none, [("z", Arg.num 9)]⟩]

/-- Witness for C4 at a concrete three-stage run whose middle task
terminates. -/
theorem c4_terminate_midrun_witness :
    terminalCalls (step 9 .pnext (midState (c4midRows ++ c4termRow :: c4postRows) Arg.nullV cbFn 0 [] none [])) = 1
    ∧ terminalDatas (step 9 .pnext (midState (c4midRows ++ c4termRow :: c4postRows) Arg.nullV cbFn 0 [] none []))
        = [(errStep1 (errAcc none c4midRows) c4termRow.err, Arg.obj (stageData c4termRow))]
    ∧ invokesAtOrAfter (c4midRows.length + 1)
        (step 9 .pnext (midState (c4midRows ++ c4termRow :: c4postRows) Arg.nullV cbFn 0 [] none [])) = 0
    ∧ invokeCount (step 9 .pnext (midState (c4midRows ++ c4termRow :: c4postRows) Arg.nullV cbFn 0 [] none []))
        = c4midRows.length + 1 :=
  c4_terminate_midrun Arg.nullV c4midRows (by decide) c4termRow (by rfl) c4postRows 9 (by decide)

/-- Claim C7.  Task-reported errors do not stop stage advancement: for
every run of single-task stages, every stage is dispatched and the
terminal callback receives the accumulated error (built by the string
concatenation of `handlePartialSequenceComplete`) alongside the merged
data, and that error is none when no task reported one.  The last
conjunct shows the concrete concatenation across a concurrent group:
two group members reporting "e1" and "e2" yield the accumulated string
"undefined e1 e2" at the terminal callback, while the following stage
still executed. -/
theorem c7_errors_accumulate_without_stopping
    (args : Arg) (rows : List Row) (hne : rows ≠ []) (hterm : ∀ x ∈ rows, x.term = false)
    (f : Nat) (hf : 3 * rows.length ≤ f) :
    invokeCount (step f .pnext (midState rows args cbFn 0 [] none [])) = rows.length
    ∧ terminalDatas (step f .pnext (midState rows args cbFn 0 [] none []))
        = [(errAcc none rows, Arg.obj (lastData [] rows))]
    ∧ ((∀ x ∈ rows, x.err = none) → errAcc none rows = none)
    ∧ (bsyncSequence 40 [.obj [("sequence",
          Arg.arrV [Arg.arrV [errTask "e1", errTask "e2"], retTask "r2" 2]),
          ("callback", cbFn)]]).events
        = [.invoke 0 0 [("sequence", Arg.seqRef)],
           .invoke 0 1 [("sequence", Arg.seqRef)],
           .invoke 1 0 [("sequence", Arg.seqRef)],
           .terminal (some "undefined e1 e2") (Arg.obj [("r2", Arg.num 2)])] := by
  have hrun := run_singles args cbFn rfl rows hne hterm [] [] none [] f hf
  simp only [List.nil_append, List.length_nil, Nat.zero_add] at hrun
  rw [hrun]
  refine ⟨?_, ?_, ?_, ?_⟩
  · simp [invokeCount, midState, runEvents_countP_invoke]
  · simp [terminalDatas, midState, runEvents_filterMap_terminal _ _ _ _ _ hne]
  · exact errAcc_none rows none
  · rfl

def c7rows : List Row := [⟨false, some "boom", [("a", Arg.num 1)]⟩, ⟨false, none, [("b", Arg.num 2)]⟩]

/-- Witness for C7 at a concrete two-stage run whose first task reports
an error. -/
theorem c7_errors_accumulate_witness :
    invokeCount (step 9 .pnext (midState c7rows Arg.nullV cbFn 0 [] none [])) = c7rows.length
    ∧ terminalDatas (step 9 .pnext (midState c7rows Arg.nullV cbFn 0 [] none []))
        = [(errAcc none c7rows, Arg.obj (lastData [] c7rows))]
    ∧ ((∀ x ∈ c7rows, x.err = none) → errAcc none c7rows = none)
    ∧ (bsyncSequence 40 [.obj [("sequence",
          Arg.arrV [Arg.arrV [errTask "e1", errTask "e2"], retTask "r2" 2]),
          ("callback", cbFn)]]).events
        = [.invoke 0 0 [("sequence", Arg.seqRef)],
           .invoke 0 1 [("sequence", Arg.seqRef)],
           .invoke 1 0 [("sequence", Arg.seqRef)],
           .terminal (some "undefined e1 e2") (Arg.obj [("r2", Arg.num 2)])] :=
  c7_errors_accumulate_without_stopping Arg.nullV c7rows (by simp [c7rows]) (by decide) 9 (by decide)

/-- Claim C10.  If the stage at the current index is an empty array, its
dispatch performs no further observable work: `concurrentFunctions` is
set to zero and the dispatch loop runs zero iterations, so no completion
handler will ever run, no task of this or any later stage is invoked and
the terminal callback is never invoked; the run simply returns with its
event log unchanged. -/
theorem c10_empty_group_no_progress (s : S) (f : Nat) (hc : s.crashed = none)
    (hf : 0 < f) (hstage : jsIndex s.sequence s.currentSequenceIdx = Arg.arrV []) :
    (step f .pnext s).events = s.events ∧ (step f .pnext s).crashed = none := by
  obtain ⟨g, rfl⟩ : ∃ g, f = g + 1 := ⟨f - 1, by omega⟩
  simp [step, hc, hstage]

def c10state : S :=
  newSequencer [Arg.obj [("sequence", Arg.arrV [Arg.arrV []]), ("callback", cbFn)]]

/-- Witness for C10 at a concrete valid Sequencer whose first stage is an
empty parallel group. -/
theorem c10_empty_group_no_progress_witness :
    (step 5 .pnext c10state).events = c10state.events
    ∧ (step 5 .pnext c10state).crashed = none :=
  c10_empty_group_no_progress c10state 5 (by rfl) (by decide) (by rfl)

/-- Claim C2, amended.  For every sequence of single-task stages that
complete synchronously and successfully with well-formed result mappings
not containing the key x, run with initialArgs x:1 and a callback: the
terminal callback receives an error that is falsy and a data argument
equal to the FINAL stage's result mapping (earlier stage results feed the
next stage's context and are not re-surfaced at the terminal callback),
and every task observes x = 1 in its context. -/
theorem c2_amended_terminal_is_final_stage_data
    (ms : List (List (String × Arg))) (hne : ms ≠ [])
    (hnd : ∀ m ∈ ms, (m.map Prod.fst).Nodup)
    (hx : ∀ m ∈ ms, hasKey m "x" = false)
    (f : Nat) (hf : 3 * ms.length ≤ f) :
    terminalDatas (step f .pnext (midState (ms.map (fun m => Row.mk false none m))
        (Arg.obj [("x", Arg.num 1)]) cbFn 0 [] none []))
      = [(none, Arg.obj (ms.getLastD []))]
    ∧ ∀ j mi o, Event.invoke j mi o ∈ (step f .pnext (midState (ms.map (fun m => Row.mk false none m))
        (Arg.obj [("x", Arg.num 1)]) cbFn 0 [] none [])).events →
        ctxGet o "x" = Arg.num 1 := by
  have hne2 : ms.map (fun m => Row.mk false none m) ≠ [] := by simpa using hne
  have hterm : ∀ x ∈ ms.map (fun m => Row.mk false none m), x.term = false := by
    intro x hx2
    rcases List.mem_map.mp hx2 with ⟨m, _, hm2⟩
    rw [← hm2]
  have herr : ∀ x ∈ ms.map (fun m => Row.mk false none m), x.err = none := by
    intro x hx2
    rcases List.mem_map.mp hx2 with ⟨m, _, hm2⟩
    rw [← hm2]
  have hrun := run_singles (Arg.obj [("x", Arg.num 1)]) cbFn rfl
    (ms.map (fun m => Row.mk false none m)) hne2 hterm [] [] none [] f (by simpa using hf)
  simp only [List.nil_append, List.length_nil, Nat.zero_add] at hrun
  constructor
  · rw [hrun]
    simp only [terminalDatas, midState]
    rw [runEvents_filterMap_terminal _ _ _ _ _ hne2,
      errAcc_none _ none herr, lastData_map ms hne [],
      listMerge_nil_of_nodup _ (hnd _ (getLastD_mem ms [] hne))]
  · intro j mi o hmem
    rw [hrun] at hmem
    simp only [midState, List.nil_append] at hmem
    rcases runEvents_invoke_mem _ _ _ _ _ _ _ _ hmem with h1 | ⟨r2, hr2, h1⟩
    · rw [h1]; rfl
    · rw [h1]
      rcases List.mem_map.mp hr2 with ⟨m, hm, hm2⟩
      have hk : hasKey (stageData r2) "x" = false := by
        rw [← hm2]
        show hasKey (listMerge [] m) "x" = false
        rw [hasKey_listMerge]
        simp [hasKey_nil, hx m hm]
      rw [show mkOpts (Arg.obj [("x", Arg.num 1)]) (stageData r2)
          = listMerge (listMerge [("sequence", Arg.seqRef)] [("x", Arg.num 1)]) (stageData r2) from rfl,
        ctxGet_listMerge_absent _ _ _ hk]
      rfl

def c2msWitness : List (List (String × Arg)) :=
  [[("taskA", Arg.num 1)], [("taskB", Arg.num 2)], [("taskC", Arg.num 3)]]

/-- Witness for the amended C2 at the claim's own concrete scenario. -/
theorem c2_amended_witness :
    terminalDatas (step 12 .pnext (midState (c2msWitness.map (fun m => Row.mk false none m))
        (Arg.obj [("x", Arg.num 1)]) cbFn 0 [] none []))
      = [(none, Arg.obj (c2msWitness.getLastD []))]
    ∧ ∀ j mi o, Event.invoke j mi o ∈ (step 12 .pnext (midState (c2msWitness.map (fun m => Row.mk false none m))
        (Arg.obj [("x", Arg.num 1)]) cbFn 0 [] none [])).events →
        ctxGet o "x" = Arg.num 1 :=
  c2_amended_terminal_is_final_stage_data c2msWitness (by simp [c2msWitness])
    (by decide) (by decide) 12 (by decide)

theorem ctxGet_mkOpts_absent (a pd : List (String × Arg)) (k : String)
    (hk : hasKey pd k = false) :
    ctxGet (mkOpts (Arg.obj a) pd) k = ctxGet (listMerge [("sequence", Arg.seqRef)] a) k := by
  rw [show mkOpts (Arg.obj a) pd = listMerge (listMerge [("sequence", Arg.seqRef)] a) pd from rfl]
  exact ctxGet_listMerge_absent _ _ _ hk

theorem ctxGet_mkOpts_present_pd (a pd : List (String × Arg)) (k : String)
    (hk : hasKey pd k = true) (hnd : (pd.map Prod.fst).Nodup) :
    ctxGet (mkOpts (Arg.obj a) pd) k = ctxGet pd k := by
  rw [show mkOpts (Arg.obj a) pd = listMerge (listMerge [("sequence", Arg.seqRef)] a) pd from rfl]
  exact ctxGet_listMerge_present _ _ _ hk hnd

theorem ctxGet_seq_base_present (a : List (String × Arg)) (k : String)
    (ha : hasKey a k = true) (hnd : (a.map Prod.fst).Nodup) :
    ctxGet (listMerge [("sequence", Arg.seqRef)] a) k = ctxGet a k :=
  ctxGet_listMerge_present _ _ _ ha hnd

theorem ctxGet_seq_base_absent (a : List (String × Arg)) (k : String)
    (ha : hasKey a k = false) (hks : ¬k = "sequence") :
    ctxGet (listMerge [("sequence", Arg.seqRef)] a) k = Arg.jsUndefined := by
  rw [ctxGet_listMerge_absent _ _ _ ha, ctxGet_cons]
  have h2 : ¬("sequence" : String) = k := fun h => hks h.symm
  simp [h2, ctxGet_nil]

/-- Claim C5, amended.  For every run of well-behaved single-task stages
with plain-object initialArgs `a` and a key `k` other than the reserved
back-reference key: (first conjunct) a key of the initial args that no
stage reproduces is visible with its initial value in the context of
every stage; (second conjunct) a key first produced at stage i is
visible at stage i+1 with the produced value; (third conjunct) a key
absent from the initial args and not produced before stage j reads as
undefined in stage j's context — in particular a stage never sees its
own keys, and (by the counterexample) visibility does NOT extend past
stage i+1 unless re-emitted. -/
theorem c5_amended_visibility
    (a : List (String × Arg)) (hnda : (a.map Prod.fst).Nodup)
    (ms : List (List (String × Arg))) (hne : ms ≠ [])
    (f : Nat) (hf : 3 * ms.length ≤ f) (k : String) (hks : ¬k = "sequence") :
    (hasKey a k = true → (∀ m ∈ ms, hasKey m k = false) →
      ∀ j, j < ms.length →
        ∀ o ∈ invokeOptsAt (step f .pnext (midState (ms.map (fun m => Row.mk false none m))
            (Arg.obj a) cbFn 0 [] none [])) j,
          ctxGet o k = ctxGet a k)
    ∧ (∀ i, i + 1 < ms.length → hasKey (ms.getD i []) k = true →
        ((ms.getD i []).map Prod.fst).Nodup →
        ∀ o ∈ invokeOptsAt (step f .pnext (midState (ms.map (fun m => Row.mk false none m))
            (Arg.obj a) cbFn 0 [] none [])) (i + 1),
          ctxGet o k = ctxGet (ms.getD i []) k)
    ∧ (∀ i, hasKey a k = false → (∀ j2, j2 < i → hasKey (ms.getD j2 []) k = false) →
        ∀ j, j ≤ i → j < ms.length →
        ∀ o ∈ invokeOptsAt (step f .pnext (midState (ms.map (fun m => Row.mk false none m))
            (Arg.obj a) cbFn 0 [] none [])) j,
          ctxGet o k = Arg.jsUndefined) := by
  have hne2 : ms.map (fun m => Row.mk false none m) ≠ [] := by simpa using hne
  have hterm : ∀ x ∈ ms.map (fun m => Row.mk false none m), x.term = false := by
    intro x hx2
    rcases List.mem_map.mp hx2 with ⟨m, _, hm2⟩
    rw [← hm2]
  have hrun := run_singles (Arg.obj a) cbFn rfl
    (ms.map (fun m => Row.mk false none m)) hne2 hterm [] [] none [] f (by simpa using hf)
  simp only [List.nil_append, List.length_nil, Nat.zero_add] at hrun
  have hopts : ∀ j, j < ms.length →
      invokeOptsAt (step f .pnext (midState (ms.map (fun m => Row.mk false none m))
          (Arg.obj a) cbFn 0 [] none [])) j
        = [mkOpts (Arg.obj a) (pdAtRows [] (ms.map (fun m => Row.mk false none m)) j)] := by
    intro j hj
    rw [hrun, invokeOptsAt_eq_evOptsAt]
    simp only [midState, List.nil_append]
    have := evOptsAt_runEvents (Arg.obj a) 0 [] none
      (ms.map (fun m => Row.mk false none m)) j (by simpa using hj)
    simpa using this
  have hpdAbsent : ∀ j, j < ms.length → (∀ j2, j2 + 1 = j → hasKey (ms.getD j2 []) k = false) →
      hasKey (pdAtRows [] (ms.map (fun m => Row.mk false none m)) j) k = false := by
    intro j hj hcond
    cases j with
    | zero => rfl
    | succ j2 =>
      have hj2 : j2 < ms.length := by omega
      show hasKey (stageData ((ms.map (fun m => Row.mk false none m)).getD j2 ⟨false, none, []⟩)) k = false
      rw [getD_map_mkRow ms j2 hj2]
      show hasKey (listMerge [] (ms.getD j2 [])) k = false
      rw [hasKey_listMerge, hcond j2 rfl]
      rfl
  refine ⟨?_, ?_, ?_⟩
  · intro hka hmss j hj o ho
    rw [hopts j hj] at ho
    simp only [List.mem_singleton] at ho
    subst ho
    rw [ctxGet_mkOpts_absent _ _ _
      (hpdAbsent j hj (fun j2 hj2 => hmss _ (getD_mem ms j2 [] (by omega))))]
    exact ctxGet_seq_base_present a k hka hnda
  · intro i hi hkm hndm o ho
    rw [hopts (i + 1) hi] at ho
    simp only [List.mem_singleton] at ho
    subst ho
    show ctxGet (mkOpts (Arg.obj a)
      (stageData ((ms.map (fun m => Row.mk false none m)).getD i ⟨false, none, []⟩))) k = _
    rw [getD_map_mkRow ms i (by omega)]
    show ctxGet (mkOpts (Arg.obj a) (listMerge [] (ms.getD i []))) k = _
    rw [listMerge_nil_of_nodup _ hndm]
    exact ctxGet_mkOpts_present_pd a _ k hkm hndm
  · intro i hka hprev j hji hj o ho
    rw [hopts j hj] at ho
    simp only [List.mem_singleton] at ho
    subst ho
    rw [ctxGet_mkOpts_absent _ _ _
      (hpdAbsent j hj (fun j2 hj2 => hprev j2 (by omega)))]
    exact ctxGet_seq_base_absent a k hka hks

/-- Witness for the amended C5 at the three-stage concrete scenario with
key taskA. -/
theorem c5_amended_visibility_witness :
    (hasKey [("x", Arg.num 1)] "taskA" = true → (∀ m ∈ c2msWitness, hasKey m "taskA" = false) →
      ∀ j, j < c2msWitness.length →
        ∀ o ∈ invokeOptsAt (step 12 .pnext (midState (c2msWitness.map (fun m => Row.mk false none m))
            (Arg.obj [("x", Arg.num 1)]) cbFn 0 [] none [])) j,
          ctxGet o "taskA" = ctxGet [("x", Arg.num 1)] "taskA")
    ∧ (∀ i, i + 1 < c2msWitness.length → hasKey (c2msWitness.getD i []) "taskA" = true →
        ((c2msWitness.getD i []).map Prod.fst).Nodup →
        ∀ o ∈ invokeOptsAt (step 12 .pnext (midState (c2msWitness.map (fun m => Row.mk false none m))
            (Arg.obj [("x", Arg.num 1)]) cbFn 0 [] none [])) (i + 1),
          ctxGet o "taskA" = ctxGet (c2msWitness.getD i []) "taskA")
    ∧ (∀ i, hasKey [("x", Arg.num 1)] "taskA" = false →
        (∀ j2, j2 < i → hasKey (c2msWitness.getD j2 []) "taskA" = false) →
        ∀ j, j ≤ i → j < c2msWitness.length →
        ∀ o ∈ invokeOptsAt (step 12 .pnext (midState (c2msWitness.map (fun m => Row.mk false none m))
            (Arg.obj [("x", Arg.num 1)]) cbFn 0 [] none [])) j,
          ctxGet o "taskA" = Arg.jsUndefined) :=
  c5_amended_visibility [("x", Arg.num 1)] (by decide) c2msWitness (by simp [c2msWitness])
    12 (by decide) "taskA" (by decide)

theorem truthy_cbFn : truthy cbFn = true := rfl

theorem isFunctionV_cbFn : isFunctionV cbFn = true := rfl

theorem isArrayV_arr (xs : List Arg) : isArrayV (Arg.arrV xs) = true := rfl

theorem isFunctionV_obj (m : List (String × Arg)) : isFunctionV (Arg.obj m) = false := rfl

theorem isPlainObjectV_obj (m : List (String × Arg)) : isPlainObjectV (Arg.obj m) = true := rfl

theorem objConstructor_invalid_args (s : S) (hse : s.startupErrorText = none)
    (xs : List Arg) (argsV : Arg)
    (htr : truthy argsV = true) (hpo : isPlainObjectV argsV = false) :
    objConstructor s [("sequence", Arg.arrV xs), ("args", argsV), ("callback", cbFn)] =
      { s with sequence := Arg.arrV xs, args := argsV, callback := cbFn,
               startupErrorText := some invalidArgsMsg } := by
  cases s
  simp only [S.mk.injEq] at hse ⊢
  simp only [objConstructor, objConstructorRest] at *
  have h1 : ctxGet [("sequence", Arg.arrV xs), ("args", argsV), ("callback", cbFn)] "sequence"
      = Arg.arrV xs := rfl
  have h2 : ctxGet [("sequence", Arg.arrV xs), ("args", argsV), ("callback", cbFn)] "args"
      = argsV := rfl
  have h3 : ctxGet [("sequence", Arg.arrV xs), ("args", argsV), ("callback", cbFn)] "callback"
      = cbFn := rfl
  rw [h1, h2, h3] at *
  simp [htr, hpo, hse, truthy_cbFn, isFunctionV_cbFn, isArrayV_arr]

theorem construct_invalid_args (xs : List Arg) (argsV : Arg)
    (htr : truthy argsV = true) (hpo : isPlainObjectV argsV = false) :
    construct [Arg.obj [("sequence", Arg.arrV xs), ("args", argsV), ("callback", cbFn)]]
        (newSequencer []) =
      { sequence := Arg.arrV xs, args := argsV, callback := cbFn,
        startupErrorText := some invalidArgsMsg, currentSequenceIdx := 0, pendingData := [],
        pendingErr := none, concurrentFunctions := 0, isConstructing := false, crashed := none,
        events := [Event.terminal (some invalidArgsMsg) Arg.nullV] } := by
  rw [show newSequencer [] = ({} : S) from rfl]
  simp only [construct, List.isEmpty_cons, Bool.false_and, Bool.false_eq_true, if_false,
    List.getD_cons_zero, isFunctionV_obj, isPlainObjectV_obj, List.length_cons,
    List.length_nil, Bool.not_false, Bool.true_and]
  rw [objConstructor_invalid_args _ rfl xs argsV htr hpo]
  simp [truthy_cbFn]

/-- Claim C8, amended.  For every configuration with a well-formed stage
list, a truthy malformed args value and a callback: construction records
the descriptive error, reports it exactly once through the callback as
`(errorText, null)`, does not throw, and invokes no task — but `go()` on
such an invalid Sequencer is NOT a no-op and does not complete with the
stored error: the public wrapper's unconditional `go()` dispatches the
stage list anyway (invoking the task and firing the terminal callback a
second time with the run result), and with a malformed stage list `go()`
throws a TypeError instead. -/
theorem c8_amended_construct_reports_once_but_go_unguarded
    (xs : List Arg) (argsV : Arg)
    (htr : truthy argsV = true) (hpo : isPlainObjectV argsV = false) :
    (construct [Arg.obj [("sequence", Arg.arrV xs), ("args", argsV), ("callback", cbFn)]]
        (newSequencer [])).startupErrorText = some invalidArgsMsg
    ∧ (construct [Arg.obj [("sequence", Arg.arrV xs), ("args", argsV), ("callback", cbFn)]]
        (newSequencer [])).events = [Event.terminal (some invalidArgsMsg) Arg.nullV]
    ∧ invokeCount (construct [Arg.obj [("sequence", Arg.arrV xs), ("args", argsV), ("callback", cbFn)]]
        (newSequencer [])) = 0
    ∧ (construct [Arg.obj [("sequence", Arg.arrV xs), ("args", argsV), ("callback", cbFn)]]
        (newSequencer [])).crashed = none
    ∧ (bsyncSequence 40 [.obj [("sequence", Arg.arrV [retTask "r" 7]),
                               ("args", Arg.arrV [Arg.num 1]),
                               ("callback", cbFn)]]).events
      = [.terminal (some invalidArgsMsg) Arg.nullV,
         .invoke 0 0 [("sequence", Arg.seqRef), ("0", Arg.num 1)],
         .terminal none (Arg.obj [("r", Arg.num 7)])]
    ∧ (bsyncSequence 40 [.obj [("sequence", Arg.num 5), ("callback", cbFn)]]).crashed
      = some "TypeError: stage is not a function"
    ∧ invokeCount (bsyncSequence 40 [.obj [("sequence", Arg.num 5), ("callback", cbFn)]]) = 0 := by
  rw [construct_invalid_args xs argsV htr hpo]
  exact ⟨rfl, rfl, rfl, rfl, rfl, rfl, rfl⟩

/-- Witness for the amended C8 at the concrete invalid configuration
whose args value is an array. -/
theorem c8_amended_witness :
    (construct [Arg.obj [("sequence", Arg.arrV [retTask "r" 7]), ("args", Arg.arrV [Arg.num 1]),
        ("callback", cbFn)]] (newSequencer [])).startupErrorText = some invalidArgsMsg
    ∧ (construct [Arg.obj [("sequence", Arg.arrV [retTask "r" 7]), ("args", Arg.arrV [Arg.num 1]),
        ("callback", cbFn)]] (newSequencer [])).events
      = [Event.terminal (some invalidArgsMsg) Arg.nullV]
    ∧ invokeCount (construct [Arg.obj [("sequence", Arg.arrV [retTask "r" 7]), ("args", Arg.arrV [Arg.num 1]),
        ("callback", cbFn)]] (newSequencer [])) = 0
    ∧ (construct [Arg.obj [("sequence", Arg.arrV [retTask "r" 7]), ("args", Arg.arrV [Arg.num 1]),
        ("callback", cbFn)]] (newSequencer [])).crashed = none
    ∧ (bsyncSequence 40 [.obj [("sequence", Arg.arrV [retTask "r" 7]),
                               ("args", Arg.arrV [Arg.num 1]),
                               ("callback", cbFn)]]).events
      = [.terminal (some invalidArgsMsg) Arg.nullV,
         .invoke 0 0 [("sequence", Arg.seqRef), ("0", Arg.num 1)],
         .terminal none (Arg.obj [("r", Arg.num 7)])]
    ∧ (bsyncSequence 40 [.obj [("sequence", Arg.num 5), ("callback", cbFn)]]).crashed
      = some "TypeError: stage is not a function"
    ∧ invokeCount (bsyncSequence 40 [.obj [("sequence", Arg.num 5), ("callback", cbFn)]]) = 0 :=
  c8_amended_construct_reports_once_but_go_unguarded [retTask "r" 7] (Arg.arrV [Arg.num 1]) rfl rfl
